import Mathlib

/-!
Shallow embedding of the ownership-scoped CRUD core of the TODO-APP
repository: the task REST backend (`backend/api/tasks.py`,
`backend/api/deps.py`), the chatbot session verifier
(`chatbot-backend/app/auth/jwt.py`), and the chat thread/message store
(`chatbot-backend/app/store/neon_store.py`).

Timestamps are modelled as `Nat`, database tables as lists of rows, and
SQL `ORDER BY` as `List.insertionSort` over the corresponding key.
HTTP / store errors are explicit sum types carrying the detail string
raised by the source.
-/

namespace TodoApp

/-- HTTP-level errors raised by the backends (`HTTPException` with
status 401 / 403 / 404, carrying its `detail` string). -/
inductive ApiError where
  | Unauthenticated : String → ApiError
  | Forbidden : String → ApiError
  | NotFound : String → ApiError
deriving Repr, DecidableEq

/-- A row of the `task` table (`backend/models/task.py`). -/
structure Task where
  id : Nat
  user_id : String
  title : String
  description : Option String
  completed : Bool
  created_at : Nat
  updated_at : Nat
deriving Repr, DecidableEq

/-- `select(Task).where(Task.id == task_id, Task.user_id == user_id)` followed
by `.first()`: the ownership-scoped point lookup shared by the task endpoints. -/
def findTask (db : List Task) (user_id : String) (task_id : Nat) : Option Task :=
  db.find? (fun t => t.id == task_id && t.user_id == user_id)

/-- The `detail` of every task 404 in `backend/api/tasks.py`. -/
def taskNotFound : ApiError := ApiError.NotFound "Task not found"

/-- `GET /{user_id}/tasks/{task_id}` (`get_task` in `backend/api/tasks.py`). -/
def get_task (db : List Task) (user_id : String) (task_id : Nat) :
    Except ApiError Task :=
  match findTask db user_id task_id with
  | none => .error taskNotFound
  | some t => .ok t

/-- Payload of `PUT /{user_id}/tasks/{task_id}` (`TaskUpdate` schema:
both fields optional). -/
structure TaskUpdate where
  title : Option String
  description : Option String
deriving Repr, DecidableEq

/-- Replace the row with primary key `tid` by `t'` (the effect of mutating a
fetched ORM row and committing). -/
def replaceById (db : List Task) (tid : Nat) (t' : Task) : List Task :=
  db.map (fun u => if u.id == tid then t' else u)

/-- `PUT /{user_id}/tasks/{task_id}` (`update_task`): ownership-scoped lookup,
404 on miss; otherwise applies only the supplied fields, refreshes
`updated_at`, and commits. Returns the response and the new table state. -/
def update_task (db : List Task) (user_id : String) (task_id : Nat)
    (task_data : TaskUpdate) (now : Nat) : Except ApiError Task × List Task :=
  match findTask db user_id task_id with
  | none => (.error taskNotFound, db)
  | some t =>
      let t1 := match task_data.title with
        | some s => { t with title := s }
        | none => t
      let t2 := match task_data.description with
        | some s => { t1 with description := some s }
        | none => t1
      let t3 := { t2 with updated_at := now }
      (.ok t3, replaceById db task_id t3)

/-- `PATCH /{user_id}/tasks/{task_id}/complete` (`toggle_completion`):
ownership-scoped lookup, 404 on miss; otherwise flips `completed`,
refreshes `updated_at`, commits. -/
def toggle_completion (db : List Task) (user_id : String) (task_id : Nat)
    (now : Nat) : Except ApiError Task × List Task :=
  match findTask db user_id task_id with
  | none => (.error taskNotFound, db)
  | some t =>
      let t' := { t with completed := !t.completed, updated_at := now }
      (.ok t', replaceById db task_id t')

/-- `DELETE /{user_id}/tasks/{task_id}` (`delete_task`): ownership-scoped
lookup, 404 on miss; otherwise deletes the row. -/
def delete_task (db : List Task) (user_id : String) (task_id : Nat) :
    Except ApiError Unit × List Task :=
  match findTask db user_id task_id with
  | none => (.error taskNotFound, db)
  | some t => (.ok (), db.filter (fun u => !(u.id == t.id)))

/-- Python truthiness on an optional string: `None` and `""` are falsy. -/
def pyFalsy : Option String → Bool
  | none => true
  | some s => s == ""

/-- Python's `str` whitespace (the characters `str.strip()` removes). -/
def pySpace (c : Char) : Bool :=
  c == ' ' || c == '\t' || c == '\n' || c == '\r' ||
    c == Char.ofNat 11 || c == Char.ofNat 12

/-- Python's `s.strip()`: drop whitespace from both ends. -/
def pyStrip (s : String) : String :=
  ⟨((s.data.dropWhile pySpace).reverse.dropWhile pySpace).reverse⟩

/-- Python's `s.startswith(pre)`: prefix test. -/
def pyStartsWith (s pre : String) : Bool :=
  pre.data.isPrefixOf s.data

/-- `verify_user_ownership` (`backend/api/deps.py`): `session_user_id` is
`session_data.get("userId")`; `if not session_user_id` raises 401;
`if session_user_id != user_id` raises 403; otherwise returns `user_id`. -/
def verify_user_ownership (user_id : String) (session_user_id : Option String) :
    Except ApiError String :=
  if pyFalsy session_user_id then
    .error (.Unauthenticated "Missing userId in session")
  else if session_user_id ≠ some user_id then
    .error (.Forbidden "User ID mismatch")
  else
    .ok user_id

/-- A row of the Better Auth `session` table, as selected by the verifiers. -/
structure SessionRow where
  userId : String
  expiresAt : Option Nat
  sessionId : String
  token : String
deriving Repr, DecidableEq

/-- Outcome of the session-table point lookup: the query returned a row,
returned no row, or raised (store unreachable / query failed). -/
inductive LookupResult where
  | ok : Option SessionRow → LookupResult
  | failure : LookupResult
deriving Repr, DecidableEq

/-- Session data returned by `verify_session_token` on success. -/
structure SessionData where
  userId : String
  sessionId : String
  token : String
  expiresAt : Option Nat
deriving Repr, DecidableEq

/-- `verify_session_token` (`backend/api/deps.py`): looks the bearer token up
in the `session` table; no row → 401 "Invalid token"; expired → 401
"Session expired"; any exception from the lookup is caught by the
`except Exception` handler → 401 "Invalid token". -/
def verify_session_token (lookup : LookupResult) (now : Nat) :
    Except ApiError SessionData :=
  match lookup with
  | .failure => .error (.Unauthenticated "Invalid token")
  | .ok none => .error (.Unauthenticated "Invalid token")
  | .ok (some row) =>
      match row.expiresAt with
      | some exp =>
          if now > exp then .error (.Unauthenticated "Session expired")
          else .ok ⟨row.userId, row.sessionId, row.token, row.expiresAt⟩
      | none => .ok ⟨row.userId, row.sessionId, row.token, row.expiresAt⟩

/-- `verify_token` (`chatbot-backend/app/auth/jwt.py`): checks the
`Authorization` header shape, looks the token up in the `session` table;
no row → 401 "Invalid token"; expired → 401 "Session expired"; any
exception from the lookup is caught → 401 "Invalid token". The returned
value is the row's `userId`. -/
def verify_token (authorization : Option String) (lookup : LookupResult)
    (now : Nat) : Except ApiError String :=
  if pyFalsy authorization ||
      !(pyStartsWith (authorization.getD "") "Bearer ") then
    .error (.Unauthenticated "Missing authorization token")
  else
    match lookup with
    | .failure => .error (.Unauthenticated "Invalid token")
    | .ok none => .error (.Unauthenticated "Invalid token")
    | .ok (some row) =>
        match row.expiresAt with
        | some exp =>
            if now > exp then .error (.Unauthenticated "Session expired")
            else .ok row.userId
        | none => .ok row.userId

/-- Errors raised by the chat store (`chatkit.store.NotFoundError` with its
message). -/
inductive StoreError where
  | NotFound : String → StoreError
deriving Repr, DecidableEq

/-- A row of the `chat_threads` table. -/
structure ChatThread where
  id : String
  user_id : String
  title : Option String
  created_at : Nat
  updated_at : Nat
deriving Repr, DecidableEq

/-- A row of the `chat_messages` table. -/
structure ChatMessage where
  id : Nat
  thread_id : String
  role : String
  content : String
  created_at : Nat
deriving Repr, DecidableEq

/-- `ThreadMetadata` as built by the store: `load_thread` fills only `id` and
`created_at`; `load_threads` also fills `updated_at`. -/
structure ThreadMetadata where
  id : String
  created_at : Nat
  updated_at : Option Nat
deriving Repr, DecidableEq

/-- A `ThreadItem`: `user`/`assistant` are `UserMessageItem` /
`AssistantMessageItem`; `other` stands for any other item type the ChatKit
protocol can hand to `add_thread_item` (stored with role `system`). -/
inductive ThreadItem where
  | user : Nat → String → Nat → String → ThreadItem
  | assistant : Nat → String → Nat → String → ThreadItem
  | other : Nat → String → Nat → String → ThreadItem
deriving Repr, DecidableEq

/-- The message id of a `ThreadItem` (source: `item.id`). -/
def itemId : ThreadItem → Nat
  | .user i _ _ _ => i
  | .assistant i _ _ _ => i
  | .other i _ _ _ => i

/-- The `created_at` of a `ThreadItem`. -/
def itemCreated : ThreadItem → Nat
  | .user _ _ c _ => c
  | .assistant _ _ c _ => c
  | .other _ _ c _ => c

/-- The serialized content of a `ThreadItem`. -/
def itemContent : ThreadItem → String
  | .user _ _ _ s => s
  | .assistant _ _ _ s => s
  | .other _ _ _ s => s

/-- Page of threads returned by `load_threads` (`Page[ThreadMetadata]`). -/
structure ThreadPage where
  data : List ThreadMetadata
  has_more : Bool
  after : Option String
deriving Repr, DecidableEq

/-- Page of items returned by `load_thread_items` (`Page[ThreadItem]`;
the cursor is a stringified message id, modelled as a `Nat`). -/
structure ItemPage where
  data : List ThreadItem
  has_more : Bool
  after : Option Nat
deriving Repr, DecidableEq

/-- `SELECT ... FROM chat_threads WHERE id = $1` (no owner filter):
used by the cursor subquery and the ownership re-checks. -/
def lookupThread (tbl : List ChatThread) (tid : String) : Option ChatThread :=
  tbl.find? (fun t => t.id == tid)

/-- `load_thread` (`neon_store.py`): blank/whitespace id → `NotFoundError`
before querying; otherwise `WHERE id = $1 AND user_id = $2`, `NotFoundError`
on no row, else `ThreadMetadata(id, created_at)`. -/
def load_thread (tbl : List ChatThread) (uid : String) (tid : String) :
    Except StoreError ThreadMetadata :=
  if tid == "" || pyStrip tid == "" then
    .error (.NotFound "Thread ID cannot be empty. Use null/None to create new thread.")
  else
    match tbl.find? (fun t => t.id == tid && t.user_id == uid) with
    | none => .error (.NotFound ("Thread " ++ tid ++ " not found"))
    | some row => .ok ⟨row.id, row.created_at, none⟩

/-- `save_thread` (`neon_store.py`): `INSERT ... ON CONFLICT (id) DO UPDATE
SET title = EXCLUDED.title, updated_at = EXCLUDED.updated_at WHERE
chat_threads.user_id = $2`. The inserted/excluded row carries
`title = NULL` and `updated_at = now`. -/
def save_thread (tbl : List ChatThread) (thread_id : String)
    (thread_created : Nat) (uid : String) (now : Nat) : List ChatThread :=
  match lookupThread tbl thread_id with
  | none => tbl ++ [⟨thread_id, uid, none, thread_created, now⟩]
  | some _ =>
      tbl.map (fun t =>
        if t.id == thread_id && t.user_id == uid then
          { t with title := none, updated_at := now }
        else t)

/-- `ORDER BY updated_at DESC/ASC` for threads (ties left to the sort). -/
def threadLe (desc : Bool) (a b : ChatThread) : Prop :=
  cond desc (b.updated_at ≤ a.updated_at) (a.updated_at ≤ b.updated_at)

instance threadLe.decRel (d : Bool) : DecidableRel (threadLe d) := fun a b =>
  match d with
  | true => (inferInstance : Decidable (b.updated_at ≤ a.updated_at))
  | false => (inferInstance : Decidable (a.updated_at ≤ b.updated_at))

instance threadLe.total (d : Bool) : IsTotal ChatThread (threadLe d) := by
  constructor
  intro a b
  cases d <;> simp [threadLe] <;> omega

instance threadLe.trans (d : Bool) : IsTrans ChatThread (threadLe d) := by
  constructor
  intro a b c
  cases d <;> simp [threadLe] <;> omega

/-- `ORDER BY created_at DESC/ASC` for messages (ties left to the sort). -/
def msgLe (desc : Bool) (a b : ChatMessage) : Prop :=
  cond desc (b.created_at ≤ a.created_at) (a.created_at ≤ b.created_at)

instance msgLe.decRel (d : Bool) : DecidableRel (msgLe d) := fun a b =>
  match d with
  | true => (inferInstance : Decidable (b.created_at ≤ a.created_at))
  | false => (inferInstance : Decidable (a.created_at ≤ b.created_at))

instance msgLe.total (d : Bool) : IsTotal ChatMessage (msgLe d) := by
  constructor
  intro a b
  cases d <;> simp [msgLe] <;> omega

instance msgLe.trans (d : Bool) : IsTrans ChatMessage (msgLe d) := by
  constructor
  intro a b c
  cases d <;> simp [msgLe] <;> omega

/-- The threads of one owner: `WHERE user_id = $1`. -/
def ownedThreads (tbl : List ChatThread) (uid : String) : List ChatThread :=
  tbl.filter (fun t => t.user_id == uid)

/-- The thread rows the `load_threads` query ranges over: the owner's
threads and, when a cursor is supplied, only those with `updated_at <`
the cursor row's `updated_at` (no rows when the cursor id is unknown,
matching the NULL subquery comparison). -/
def threadsFiltered (tbl : List ChatThread) (uid : String)
    (after : Option String) : List ChatThread :=
  match after with
  | some c =>
      match lookupThread tbl c with
      | some crow =>
          (ownedThreads tbl uid).filter (fun t => t.updated_at < crow.updated_at)
      | none => []
  | none => ownedThreads tbl uid

/-- The `ThreadMetadata` built by `load_threads` from a row. -/
def threadMeta (r : ChatThread) : ThreadMetadata :=
  ⟨r.id, r.created_at, some r.updated_at⟩

/-- `load_threads` (`neon_store.py`): owner filter; with a cursor, the extra
predicate is `updated_at < (SELECT updated_at FROM chat_threads WHERE id =
$2)` regardless of the requested order; `ORDER BY updated_at` in the
requested order; `LIMIT limit+1`; `has_more = len(rows) > limit`;
`next_after = threads[-1].id if has_more and threads else None`. -/
def load_threads (tbl : List ChatThread) (uid : String) (limit : Nat)
    (after : Option String) (desc : Bool) : ThreadPage :=
  let sorted := List.insertionSort (threadLe desc) (threadsFiltered tbl uid after)
  let rows := sorted.take (limit + 1)
  let has_more : Bool := limit < rows.length
  let metas := (rows.take limit).map threadMeta
  let next := if has_more then metas.getLast?.map ThreadMetadata.id else none
  ⟨metas, has_more, next⟩

/-- The messages of one thread: `WHERE thread_id = $1`. -/
def threadMsgs (msgs : List ChatMessage) (tid : String) : List ChatMessage :=
  msgs.filter (fun m => m.thread_id == tid)

/-- Row-to-item conversion in `load_thread_items`: only roles `user` and
`assistant` are converted; any other role yields no item. -/
def rowToItem (m : ChatMessage) : Option ThreadItem :=
  if m.role == "user" then some (.user m.id m.thread_id m.created_at m.content)
  else if m.role == "assistant" then
    some (.assistant m.id m.thread_id m.created_at m.content)
  else none

/-- The message rows the `load_thread_items` query ranges over: the thread's
messages and, when a cursor is supplied, only those with `id >` the cursor. -/
def itemsFiltered (msgs : List ChatMessage) (tid : String)
    (after : Option Nat) : List ChatMessage :=
  match after with
  | some c => (threadMsgs msgs tid).filter (fun m => c < m.id)
  | none => threadMsgs msgs tid

/-- The page computation of `load_thread_items` after the ownership check:
with a cursor the extra predicate is `id > $2` regardless of the requested
order; `ORDER BY created_at` in the requested order; `LIMIT limit+1`;
`has_more = len(rows) > limit`; rows converted by role;
`next_after = items[-1].id if has_more and items else None`. -/
def thread_items_page (msgs : List ChatMessage) (tid : String)
    (after : Option Nat) (limit : Nat) (desc : Bool) : ItemPage :=
  let sorted := List.insertionSort (msgLe desc) (itemsFiltered msgs tid after)
  let rows := sorted.take (limit + 1)
  let has_more : Bool := limit < rows.length
  let items := (rows.take limit).filterMap rowToItem
  let next := if has_more then items.getLast?.map itemId else none
  ⟨items, has_more, next⟩

/-- `load_thread_items` (`neon_store.py`): `SELECT user_id FROM chat_threads
WHERE id = $1`; `if not thread_check` or `thread_check != context.user_id`
→ `NotFoundError` (same message both ways); otherwise the paginated query. -/
def load_thread_items (threads : List ChatThread) (msgs : List ChatMessage)
    (uid : String) (tid : String) (after : Option Nat) (limit : Nat)
    (desc : Bool) : Except StoreError ItemPage :=
  match lookupThread threads tid with
  | none => .error (.NotFound ("Thread " ++ tid ++ " not found"))
  | some t =>
      if t.user_id == "" || t.user_id != uid then
        .error (.NotFound ("Thread " ++ tid ++ " not found"))
      else
        .ok (thread_items_page msgs tid after limit desc)

/-- `add_thread_item` (`neon_store.py`): ownership re-check (`if not
thread_check or thread_check != context.user_id` → `NotFoundError`); insert
of the message with role `user`/`assistant`/`system` by item type and
`created_at = item.created_at` (the fresh id is the sequence value
`next_id`); then `UPDATE chat_threads SET updated_at = $2 WHERE id = $1`
with the item's `created_at`. -/
def add_thread_item (threads : List ChatThread) (msgs : List ChatMessage)
    (uid : String) (tid : String) (item : ThreadItem) (next_id : Nat) :
    Except StoreError (List ChatThread × List ChatMessage) :=
  match lookupThread threads tid with
  | none => .error (.NotFound ("Thread " ++ tid ++ " not found"))
  | some t =>
      if t.user_id == "" || t.user_id != uid then
        .error (.NotFound ("Thread " ++ tid ++ " not found"))
      else
        let role := match item with
          | .user _ _ _ _ => "user"
          | .assistant _ _ _ _ => "assistant"
          | .other _ _ _ _ => "system"
        let msgs' := msgs ++ [⟨next_id, tid, role, itemContent item, itemCreated item⟩]
        let threads' := threads.map (fun th =>
          if th.id == tid then { th with updated_at := itemCreated item } else th)
        .ok (threads', msgs')

/-- The client pagination loop over `load_threads`: call, collect the page,
and continue with the returned cursor while `has_more`; `fuel` bounds the
number of calls. -/
def collectThreads (tbl : List ChatThread) (uid : String) (limit : Nat)
    (desc : Bool) : Option String → Nat → List ThreadMetadata
  | _, 0 => []
  | cur, fuel + 1 =>
      let p := load_threads tbl uid limit cur desc
      p.data ++
        (if p.has_more then
          match p.after with
          | some c => collectThreads tbl uid limit desc (some c) fuel
          | none => []
        else [])

/-- The client pagination loop over `load_thread_items`: call, collect the
page, and continue with the returned cursor while `has_more`. -/
def collectItems (threads : List ChatThread) (msgs : List ChatMessage)
    (uid : String) (tid : String) (limit : Nat) (desc : Bool) :
    Option Nat → Nat → List ThreadItem
  | _, 0 => []
  | cur, fuel + 1 =>
      match load_thread_items threads msgs uid tid cur limit desc with
      | .error _ => []
      | .ok p =>
          p.data ++
            (if p.has_more then
              match p.after with
              | some c => collectItems threads msgs uid tid limit desc (some c) fuel
              | none => []
            else [])

/-! ### General list lemmas -/

/-- A `find?` over a list whose keys are distinct returns the designated
matching element, provided every element satisfying the predicate shares
its key. -/
theorem find?_eq_some_of_nodup_key {α κ : Type} (f : α → κ) (l : List α)
    (hnd : (l.map f).Nodup) (a : α) (ha : a ∈ l) (p : α → Bool)
    (hpa : p a = true) (hkey : ∀ x, p x = true → f x = f a) :
    l.find? p = some a := by
  induction l with
  | nil => cases ha
  | cons b l ih =>
      by_cases hb : p b = true
      · have hba : b = a :=
          List.inj_on_of_nodup_map hnd (List.mem_cons_self b l) ha (hkey b hb)
        rw [List.find?_cons_of_pos _ hb, hba]
      · have hba : a ≠ b := by
          intro h
          exact hb (h ▸ hpa)
        have ha' : a ∈ l := by
          rcases List.mem_cons.mp ha with h | h
          · exact absurd h hba
          · exact h
        rw [List.find?_cons_of_neg _ hb]
        exact ih (List.Nodup.of_cons hnd) ha'

/-- Length of a `filterMap` as a count of convertible elements. -/
theorem length_filterMap_eq_countP {α β : Type} (f : α → Option β) (l : List α) :
    (l.filterMap f).length = l.countP (fun a => (f a).isSome) := by
  induction l with
  | nil => rfl
  | cons a l ih =>
      cases h : f a <;>
        simp [List.filterMap_cons, h, List.countP_cons, ih]

/-! ### Task repository lemmas -/

/-- The ownership-scoped lookup misses when the task belongs to another
owner and primary keys are unique. -/
theorem findTask_eq_none_of_cross (db : List Task) (t : Task) (B : String)
    (wf : (db.map Task.id).Nodup) (hm : t ∈ db) (hB : t.user_id ≠ B) :
    findTask db B t.id = none := by
  unfold findTask
  rw [List.find?_eq_none]
  intro u hu
  simp only [Bool.and_eq_true, beq_iff_eq, not_and]
  intro hid huid
  have : u = t := List.inj_on_of_nodup_map wf hu hm (by rw [hid])
  rw [this] at huid
  exact hB huid

/-- The ownership-scoped lookup misses on a never-created id. -/
theorem findTask_eq_none_of_fresh (db : List Task) (uid : String) (nid : Nat)
    (h : ∀ u ∈ db, u.id ≠ nid) : findTask db uid nid = none := by
  unfold findTask
  rw [List.find?_eq_none]
  intro u hu
  simp only [Bool.and_eq_true, beq_iff_eq, not_and]
  intro hid
  exact absurd hid (h u hu)

/-- After replacing the row with key `tid`, the ownership-scoped lookup
returns the replacement, provided some row had key `tid` and the
replacement keeps that key and the owner. -/
theorem findTask_replaceById (db : List Task) (uid : String) (tid : Nat)
    (t' : Task) (hex : ∃ u ∈ db, u.id = tid) (hid : t'.id = tid)
    (huid : t'.user_id = uid) :
    findTask (replaceById db tid t') uid tid = some t' := by
  induction db with
  | nil => rcases hex with ⟨u, hu, _⟩; cases hu
  | cons a l ih =>
      show findTask ((if a.id == tid then t' else a) :: replaceById l tid t') uid tid = some t'
      by_cases ha : a.id = tid
      · unfold findTask
        rw [if_pos (by simpa using ha)]
        rw [List.find?_cons_of_pos _ (by simp [hid, huid])]
      · rw [if_neg (by simpa using ha)]
        unfold findTask
        rw [List.find?_cons_of_neg _ (by simp [ha])]
        rcases hex with ⟨u, hu, hutid⟩
        rcases List.mem_cons.mp hu with rfl | hu'
        · exact absurd hutid ha
        · exact ih ⟨u, hu', hutid⟩

/-! ### Claim theorems -/

/-- C1: for distinct owners `A ≠ B` and a task `t` owned by `A`, calling
`get`, `update`, `toggle_completion` or `delete` on `t.id` as `B` fails with
the `NotFound` error `taskNotFound` (hence neither `Forbidden` nor
`Unauthenticated`) and leaves the table unchanged; for a never-created id
`nid` the four operations fail with the very same `NotFound` value, so the
two failures are indistinguishable; `taskNotFound` is the 404 with detail
"Task not found". -/
theorem C1_cross_owner_and_fresh_are_identical_notfound
    (db : List Task) (t : Task) (A B : String) (nid : Nat) (td : TaskUpdate)
    (now : Nat) (wf : (db.map Task.id).Nodup) (hm : t ∈ db)
    (hA : t.user_id = A) (hAB : A ≠ B) (hfresh : ∀ u ∈ db, u.id ≠ nid) :
    get_task db B t.id = .error taskNotFound ∧
    update_task db B t.id td now = (.error taskNotFound, db) ∧
    toggle_completion db B t.id now = (.error taskNotFound, db) ∧
    delete_task db B t.id = (.error taskNotFound, db) ∧
    get_task db B nid = .error taskNotFound ∧
    update_task db B nid td now = (.error taskNotFound, db) ∧
    toggle_completion db B nid now = (.error taskNotFound, db) ∧
    delete_task db B nid = (.error taskNotFound, db) ∧
    taskNotFound = ApiError.NotFound "Task not found" := by
  have h1 : findTask db B t.id = none :=
    findTask_eq_none_of_cross db t B wf hm (by rw [hA]; exact hAB)
  have h2 : findTask db B nid = none :=
    findTask_eq_none_of_fresh db B nid hfresh
  refine ⟨?_, ?_, ?_, ?_, ?_, ?_, ?_, ?_, rfl⟩ <;>
    simp [get_task, update_task, toggle_completion, delete_task, h1, h2]

/-- C1 witness: concrete instantiation with owner `alice`, caller `bob`,
task id `1` and fresh id `99`. -/
theorem C1_witness :
    get_task [⟨1, "alice", "T", none, false, 0, 0⟩] "bob" 1 =
      .error taskNotFound :=
  (C1_cross_owner_and_fresh_are_identical_notfound
    [⟨1, "alice", "T", none, false, 0, 0⟩] ⟨1, "alice", "T", none, false, 0, 0⟩
    "alice" "bob" 99 ⟨none, none⟩ 7 (by decide) (by decide) rfl (by decide)
    (by decide)).1

/-- C3 counterexample: with path owner `alice` and a session whose verified
identity is present but equal to the empty string, the guard fails with
`Unauthenticated`, not `Forbidden`, although the identity is present
(`some "" ≠ none`) and differs from the path owner — refuting the claim
that a present-but-different identity always yields `Forbidden`. -/
theorem C3_counterexample :
    (some "" : Option String) ≠ none ∧ ("" : String) ≠ "alice" ∧
    verify_user_ownership "alice" (some "") =
      .error (.Unauthenticated "Missing userId in session") := by
  refine ⟨by simp, by simp, ?_⟩
  rfl

/-- C3 amended: the guard fails with `Unauthenticated` when the verified
identity is absent or is the empty string (Python truthiness), fails with
`Forbidden` when it is present, non-empty and differs from the path owner,
and returns the path owner unchanged when it is present, non-empty and
equal. -/
theorem C3_ownership_guard_amended (user_id : String) (sid : Option String) :
    verify_user_ownership user_id sid =
      match sid with
      | none => .error (.Unauthenticated "Missing userId in session")
      | some v =>
          if v = "" then .error (.Unauthenticated "Missing userId in session")
          else if v = user_id then .ok user_id
          else .error (.Forbidden "User ID mismatch") := by
  cases sid with
  | none => rfl
  | some v =>
      by_cases hv : v = ""
      · simp [verify_user_ownership, pyFalsy, hv]
      · by_cases hu : v = user_id <;>
          simp [verify_user_ownership, pyFalsy, hv, hu]

/-- C5: `update_task` on an existing task applies exactly the supplied
fields: omitted `title`/`description` keep their prior values, `id`,
`user_id`, `completed` and `created_at` are never modified, `updated_at`
is always refreshed to `now`, only the addressed row of the table changes,
and in particular the payload `{title: None, description: "x"}` leaves the
title unchanged and sets the description to `"x"`. -/
theorem C5_partial_update_frame (db : List Task) (uid : String) (tid : Nat)
    (t : Task) (td : TaskUpdate) (now : Nat)
    (h : findTask db uid tid = some t) :
    ∃ t3,
      update_task db uid tid td now = (.ok t3, replaceById db tid t3) ∧
      t3.id = t.id ∧ t3.user_id = t.user_id ∧ t3.completed = t.completed ∧
      t3.created_at = t.created_at ∧ t3.updated_at = now ∧
      t3.title = td.title.getD t.title ∧
      t3.description = (td.description.map some).getD t.description ∧
      (td = ⟨none, some "x"⟩ → t3.title = t.title ∧ t3.description = some "x") := by
  refine ⟨{ t with
      title := td.title.getD t.title,
      description := (td.description.map some).getD t.description,
      updated_at := now }, ?_, rfl, rfl, rfl, rfl, rfl, rfl, rfl, ?_⟩
  · cases hti : td.title <;> cases hde : td.description <;>
      simp [update_task, h, hti, hde]
  · intro heq
    rw [heq]
    simp

/-- C5 witness: concrete partial update with payload
`{title: None, description: "x"}`. -/
theorem C5_witness :
    ∃ t3,
      update_task [⟨1, "alice", "T", some "d", false, 0, 0⟩] "alice" 1
          ⟨none, some "x"⟩ 9 =
        (.ok t3, replaceById [⟨1, "alice", "T", some "d", false, 0, 0⟩] 1 t3) ∧
      t3.title = "T" ∧ t3.description = some "x" ∧ t3.updated_at = 9 := by
  rcases C5_partial_update_frame [⟨1, "alice", "T", some "d", false, 0, 0⟩]
      "alice" 1 ⟨1, "alice", "T", some "d", false, 0, 0⟩ ⟨none, some "x"⟩ 9
      (by decide) with
    ⟨t3, heq, _, _, _, _, hupd, hti, hde, _⟩
  exact ⟨t3, heq, by simpa using hti, by simpa using hde, hupd⟩

/-- C6: toggling completion twice on an existing task returns `completed` to
its original value: each call succeeds, really flips the flag, and
refreshes `updated_at` to that call's timestamp. -/
theorem C6_toggle_involution (db : List Task) (uid : String) (tid : Nat)
    (t : Task) (now1 now2 : Nat) (h : findTask db uid tid = some t) :
    ∃ t1 t2,
      toggle_completion db uid tid now1 = (.ok t1, replaceById db tid t1) ∧
      t1.completed = !t.completed ∧ t1.updated_at = now1 ∧
      toggle_completion (replaceById db tid t1) uid tid now2 =
        (.ok t2, replaceById (replaceById db tid t1) tid t2) ∧
      t2.completed = t.completed ∧ t2.updated_at = now2 := by
  have hp := List.find?_some h
  have hmem := List.mem_of_find?_eq_some h
  simp only [Bool.and_eq_true, beq_iff_eq] at hp
  have h2 : findTask (replaceById db tid { t with completed := !t.completed, updated_at := now1 })
      uid tid = some { t with completed := !t.completed, updated_at := now1 } :=
    findTask_replaceById db uid tid _ ⟨t, hmem, hp.1⟩ hp.1 hp.2
  refine ⟨{ t with completed := !t.completed, updated_at := now1 },
    { t with completed := !(!t.completed), updated_at := now2 },
    ?_, rfl, rfl, ?_, by simp, rfl⟩
  · simp [toggle_completion, h]
  · simp [toggle_completion, h2]

/-- C6 witness: concrete double toggle on a single-row table. -/
theorem C6_witness :
    ∃ t1 t2,
      toggle_completion [⟨1, "alice", "T", none, false, 0, 0⟩] "alice" 1 5 =
        (.ok t1, replaceById [⟨1, "alice", "T", none, false, 0, 0⟩] 1 t1) ∧
      t1.completed = true ∧ t1.updated_at = 5 ∧
      toggle_completion (replaceById [⟨1, "alice", "T", none, false, 0, 0⟩] 1 t1)
          "alice" 1 8 =
        (.ok t2, replaceById (replaceById [⟨1, "alice", "T", none, false, 0, 0⟩] 1 t1) 1 t2) ∧
      t2.completed = false ∧ t2.updated_at = 8 := by
  rcases C6_toggle_involution [⟨1, "alice", "T", none, false, 0, 0⟩] "alice" 1
      ⟨1, "alice", "T", none, false, 0, 0⟩ 5 8 (by decide) with
    ⟨t1, t2, h1, hc1, hu1, h2, hc2, hu2⟩
  exact ⟨t1, t2, h1, by simpa using hc1, hu1, h2, by simpa using hc2, hu2⟩

/-- C4: `save_thread` cannot be used by a non-owner to take over an existing
thread: with unique thread ids, saving under id collision by a caller `B`
who does not own the thread leaves the whole table (hence the thread's
`owner_id`, `title` and `updated_at`) unchanged; saving by the owner
updates exactly the conflicting row (`title := NULL`,
`updated_at := now`); saving a fresh id inserts the new thread for `B`. -/
theorem C4_save_thread_owner_guard (tbl : List ChatThread) (t : ChatThread)
    (B : String) (created now : Nat) (nid : String) :
    ((tbl.map ChatThread.id).Nodup → t ∈ tbl → t.user_id ≠ B →
      save_thread tbl t.id created B now = tbl) ∧
    ((tbl.map ChatThread.id).Nodup → t ∈ tbl → t.user_id = B →
      save_thread tbl t.id created B now =
        tbl.map (fun u =>
          if u.id == t.id then { u with title := none, updated_at := now }
          else u)) ∧
    ((∀ u ∈ tbl, u.id ≠ nid) →
      save_thread tbl nid created B now = tbl ++ [⟨nid, B, none, created, now⟩]) := by
  have hsome : t ∈ tbl → ∃ u, lookupThread tbl t.id = some u := by
    intro hm
    unfold lookupThread
    cases hf : tbl.find? (fun v => v.id == t.id) with
    | none =>
        rw [List.find?_eq_none] at hf
        exact absurd (by simp) (hf t hm)
    | some u => exact ⟨u, rfl⟩
  refine ⟨?_, ?_, ?_⟩
  · intro hnd hm hB
    obtain ⟨u0, hfind⟩ := hsome hm
    unfold save_thread
    rw [hfind]
    have hcong : ∀ u ∈ tbl,
        (if u.id == t.id && u.user_id == B
          then { u with title := none, updated_at := now } else u) = u := by
      intro u hu
      have hne : ¬(u.id = t.id ∧ u.user_id = B) := by
        rintro ⟨h1, h2⟩
        have : u = t := List.inj_on_of_nodup_map hnd hu hm (by rw [h1])
        rw [this] at h2
        exact hB h2
      simp only [Bool.and_eq_true, beq_iff_eq]
      rw [if_neg hne]
    rw [List.map_congr_left hcong]
    simp
  · intro hnd hm hB
    obtain ⟨u0, hfind⟩ := hsome hm
    unfold save_thread
    rw [hfind]
    apply List.map_congr_left
    intro u hu
    by_cases h1 : u.id = t.id
    · have : u = t := List.inj_on_of_nodup_map hnd hu hm (by rw [h1])
      simp [h1, this, hB]
    · simp [h1]
  · intro hfresh
    have : lookupThread tbl nid = none := by
      unfold lookupThread
      rw [List.find?_eq_none]
      intro u hu
      simpa using hfresh u hu
    rw [save_thread, this]

/-- C4 witness: `bob` saving over `alice`'s thread `t1` changes nothing. -/
theorem C4_witness :
    save_thread [⟨"t1", "alice", none, 1, 1⟩]
      (ChatThread.id ⟨"t1", "alice", none, 1, 1⟩) 3 "bob" 9 =
      [⟨"t1", "alice", none, 1, 1⟩] :=
  (C4_save_thread_owner_guard [⟨"t1", "alice", none, 1, 1⟩]
    ⟨"t1", "alice", none, 1, 1⟩ "bob" 3 9 "t2").1 (by decide) (by decide)
    (by decide)

/-- C7: `load_thread` fails with `NotFound` when the thread id is blank
(empty or whitespace-only, rejected before the query), fails with
`NotFound` when no row satisfies `id = thread_id AND user_id = owner_id`,
and otherwise returns the matching thread's metadata (its id and
`created_at`). -/
theorem C7_load_thread_cases (tbl : List ChatThread) (uid tid : String)
    (row : ChatThread) :
    (pyStrip tid = "" →
      load_thread tbl uid tid =
        .error (.NotFound "Thread ID cannot be empty. Use null/None to create new thread.")) ∧
    (pyStrip tid ≠ "" → (∀ t ∈ tbl, ¬(t.id = tid ∧ t.user_id = uid)) →
      load_thread tbl uid tid =
        .error (.NotFound ("Thread " ++ tid ++ " not found"))) ∧
    (pyStrip tid ≠ "" → (tbl.map ChatThread.id).Nodup → row ∈ tbl →
      row.id = tid → row.user_id = uid →
      load_thread tbl uid tid = .ok ⟨row.id, row.created_at, none⟩) := by
  refine ⟨?_, ?_, ?_⟩
  · intro hb
    simp [load_thread, hb]
  · intro hb hnone
    have htid : ¬(tid = "") := by
      intro h
      rw [h] at hb
      exact hb rfl
    have : tbl.find? (fun t => t.id == tid && t.user_id == uid) = none := by
      rw [List.find?_eq_none]
      intro u hu
      simpa using hnone u hu
    simp [load_thread, hb, htid, this]
  · intro hb hnd hm hid huid
    have htid : ¬(tid = "") := by
      intro h
      rw [h] at hb
      exact hb rfl
    have : tbl.find? (fun t => t.id == tid && t.user_id == uid) = some row := by
      apply find?_eq_some_of_nodup_key ChatThread.id tbl hnd row hm
      · simp [hid, huid]
      · intro x hx
        simp only [Bool.and_eq_true, beq_iff_eq] at hx
        rw [hx.1, hid]
    simp [load_thread, hb, htid, this]

/-- C7 witness: successful metadata load of an owned thread. -/
theorem C7_witness :
    load_thread [⟨"t1", "alice", none, 5, 6⟩] "alice" "t1" =
      .ok ⟨"t1", 5, none⟩ :=
  (C7_load_thread_cases [⟨"t1", "alice", none, 5, 6⟩] "alice" "t1"
    ⟨"t1", "alice", none, 5, 6⟩).2.2 (by decide) (by decide) (by decide)
    rfl rfl

/-- The role `add_thread_item` stores for each item type. -/
def roleOf : ThreadItem → String
  | .user _ _ _ _ => "user"
  | .assistant _ _ _ _ => "assistant"
  | .other _ _ _ _ => "system"

/-- C8: `add_thread_item` re-verifies thread ownership — failing with
`NotFound` when the thread is missing or owned by someone else — and on
success appends the message row (with the item's role and `created_at`)
and sets the parent thread's `updated_at` to the inserted message's
`created_at`. -/
theorem C8_add_message (threads : List ChatThread) (msgs : List ChatMessage)
    (uid tid : String) (t : ChatThread) (item : ThreadItem) (next_id : Nat) :
    (lookupThread threads tid = none →
      add_thread_item threads msgs uid tid item next_id =
        .error (.NotFound ("Thread " ++ tid ++ " not found"))) ∧
    (lookupThread threads tid = some t → t.user_id ≠ uid →
      add_thread_item threads msgs uid tid item next_id =
        .error (.NotFound ("Thread " ++ tid ++ " not found"))) ∧
    (lookupThread threads tid = some t → t.user_id = uid → uid ≠ "" →
      add_thread_item threads msgs uid tid item next_id =
        .ok (threads.map (fun th =>
              if th.id == tid then { th with updated_at := itemCreated item }
              else th),
            msgs ++ [⟨next_id, tid, roleOf item, itemContent item,
              itemCreated item⟩])) := by
  refine ⟨?_, ?_, ?_⟩
  · intro h
    simp [add_thread_item, h]
  · intro h hB
    simp [add_thread_item, h, hB]
  · intro h hB hne
    have h1 : ¬(t.user_id = "") := by
      rw [hB]
      exact hne
    cases item <;>
      simp [add_thread_item, h, hB, h1, hne, roleOf, itemContent, itemCreated]

/-- C8 witness: adding a user message to an owned thread appends the row and
bumps the thread's `updated_at` to the message timestamp. -/
theorem C8_witness :
    add_thread_item [⟨"t1", "alice", none, 1, 1⟩] [] "alice" "t1"
      (.user 0 "t1" 42 "hi") 7 =
      .ok ([⟨"t1", "alice", none, 1, 42⟩], [⟨7, "t1", "user", "hi", 42⟩]) := by
  have := (C8_add_message [⟨"t1", "alice", none, 1, 1⟩] [] "alice" "t1"
    ⟨"t1", "alice", none, 1, 1⟩ (.user 0 "t1" 42 "hi") 7).2.2 (by decide) rfl
    (by decide)
  simpa [roleOf, itemContent, itemCreated] using this

/-- C9: when the session-table lookup itself fails (store unreachable or the
query raises), both verifiers surface `Unauthenticated` with detail
"Invalid token" — byte-identical to the invalid-credential outcome — rather
than any distinct storage error. -/
theorem C9_storage_failure_is_unauthenticated (now : Nat) (auth : String)
    (hB : pyStartsWith auth "Bearer " = true) (hA : auth ≠ "") :
    verify_session_token .failure now =
      .error (.Unauthenticated "Invalid token") ∧
    verify_session_token .failure now = verify_session_token (.ok none) now ∧
    verify_token (some auth) .failure now =
      .error (.Unauthenticated "Invalid token") ∧
    verify_token (some auth) .failure now =
      verify_token (some auth) (.ok none) now := by
  refine ⟨rfl, rfl, ?_, ?_⟩ <;>
    simp [verify_token, pyFalsy, hA, hB]

/-- C9 witness: concrete failing lookup under a well-formed bearer header. -/
theorem C9_witness :
    verify_token (some "Bearer abc") .failure 0 =
      .error (.Unauthenticated "Invalid token") :=
  (C9_storage_failure_is_unauthenticated 0 "Bearer abc" (by decide)
    (by decide)).2.2.1

/-- Characterization of a successful row-to-item conversion: the item keeps
the row's id and the row's role was `user` or `assistant`. -/
theorem rowToItem_eq_some (m : ChatMessage) (it : ThreadItem)
    (h : rowToItem m = some it) :
    itemId it = m.id ∧ (m.role = "user" ∨ m.role = "assistant") := by
  unfold rowToItem at h
  split at h
  case isTrue h1 =>
      cases h
      exact ⟨rfl, Or.inl (by simpa using h1)⟩
  case isFalse h1 =>
      split at h
      case isTrue h2 =>
          cases h
          exact ⟨rfl, Or.inr (by simpa using h2)⟩
      case isFalse h2 => cases h

/-- The rows `load_thread_items` paginates over all belong to the thread. -/
theorem itemsFiltered_subset (msgs : List ChatMessage) (tid : String)
    (after : Option Nat) :
    itemsFiltered msgs tid after ⊆ threadMsgs msgs tid := by
  cases after with
  | none => exact fun m hm => hm
  | some c => exact fun m hm => List.mem_of_mem_filter hm

/-- Every item of a page produced by `thread_items_page` comes from a row of
the paginated query. -/
theorem mem_items_page_data (msgs : List ChatMessage) (tid : String)
    (after : Option Nat) (limit : Nat) (desc : Bool) (it : ThreadItem)
    (h : it ∈ (thread_items_page msgs tid after limit desc).data) :
    ∃ m ∈ itemsFiltered msgs tid after, rowToItem m = some it := by
  simp only [thread_items_page] at h
  rcases List.mem_filterMap.mp h with ⟨m, hm, hconv⟩
  refine ⟨m, ?_, hconv⟩
  have hm1 : m ∈ List.insertionSort (msgLe desc) (itemsFiltered msgs tid after) :=
    List.take_subset _ _ (List.take_subset _ _ hm)
  exact (List.perm_insertionSort _ _).subset hm1

/-- C10: `load_thread_items` never returns a stored `system`-role message
(every returned item stems from a `user`/`assistant` row, and no returned
item carries a system row's id), yet skipped rows still occupy limit
slots: `has_more` is computed from the raw row count of the paginated
query, and the page length counts only the convertible rows among the
first `limit` fetched rows — so a page can hold fewer than `limit` items
while more messages exist, as the closing concrete instance (three
messages, the second of role `system`, `limit = 2`) shows. -/
theorem C10_system_rows_consume_slots (threads : List ChatThread)
    (msgs : List ChatMessage) (uid tid : String) (t : ChatThread)
    (after : Option Nat) (limit : Nat) (desc : Bool) :
    (lookupThread threads tid = some t → t.user_id = uid → uid ≠ "" →
      load_thread_items threads msgs uid tid after limit desc =
        .ok (thread_items_page msgs tid after limit desc)) ∧
    (∀ it ∈ (thread_items_page msgs tid after limit desc).data,
      ∃ m ∈ threadMsgs msgs tid, rowToItem m = some it ∧
        (m.role = "user" ∨ m.role = "assistant")) ∧
    ((msgs.map ChatMessage.id).Nodup → ∀ m ∈ msgs, m.role = "system" →
      ∀ it ∈ (thread_items_page msgs tid after limit desc).data,
        itemId it ≠ m.id) ∧
    ((thread_items_page msgs tid after limit desc).has_more =
      decide (limit < (itemsFiltered msgs tid after).length)) ∧
    ((thread_items_page msgs tid after limit desc).data.length =
      ((List.insertionSort (msgLe desc) (itemsFiltered msgs tid after)).take
        limit).countP (fun m => (rowToItem m).isSome)) ∧
    (thread_items_page [⟨1, "t", "user", "a", 10⟩, ⟨2, "t", "system", "b", 20⟩,
        ⟨3, "t", "user", "c", 30⟩] "t" none 2 false =
      ⟨[.user 1 "t" 10 "a"], true, some 1⟩) := by
  refine ⟨?_, ?_, ?_, ?_, ?_, by decide⟩
  · intro h hB hne
    have h1 : ¬(t.user_id = "") := by
      rw [hB]
      exact hne
    simp [load_thread_items, h, hB, h1, hne]
  · intro it hit
    rcases mem_items_page_data msgs tid after limit desc it hit with ⟨m, hm, hconv⟩
    exact ⟨m, itemsFiltered_subset msgs tid after hm, hconv,
      (rowToItem_eq_some m it hconv).2⟩
  · intro hnd m hm hrole it hit heq
    rcases mem_items_page_data msgs tid after limit desc it hit with ⟨m2, hm2, hconv⟩
    rcases rowToItem_eq_some m2 it hconv with ⟨hid, hroles⟩
    have hm2' : m2 ∈ msgs :=
      List.mem_of_mem_filter (itemsFiltered_subset msgs tid after hm2)
    have : m2 = m :=
      List.inj_on_of_nodup_map hnd hm2' hm (by rw [← hid, heq])
    rw [this, hrole] at hroles
    rcases hroles with h | h <;> simp at h
  · simp only [thread_items_page]
    apply decide_eq_decide.mpr
    rw [List.length_take,
      (List.perm_insertionSort (msgLe desc) (itemsFiltered msgs tid after)).length_eq]
    omega
  · simp only [thread_items_page]
    rw [List.take_take, Nat.min_eq_left (Nat.le_succ _),
      length_filterMap_eq_countP]

/-- C10 witness: on an owned thread containing a system message, the loaded
page is exactly the computed `thread_items_page` — one item for `limit = 2`
with `has_more = true`. -/
theorem C10_witness :
    load_thread_items [⟨"t", "alice", none, 0, 0⟩]
      [⟨1, "t", "user", "a", 10⟩, ⟨2, "t", "system", "b", 20⟩,
        ⟨3, "t", "user", "c", 30⟩] "alice" "t" none 2 false =
      .ok (thread_items_page [⟨1, "t", "user", "a", 10⟩,
        ⟨2, "t", "system", "b", 20⟩, ⟨3, "t", "user", "c", 30⟩] "t" none 2 false) :=
  (C10_system_rows_consume_slots [⟨"t", "alice", none, 0, 0⟩]
    [⟨1, "t", "user", "a", 10⟩, ⟨2, "t", "system", "b", 20⟩,
      ⟨3, "t", "user", "c", 30⟩] "alice" "t" ⟨"t", "alice", none, 0, 0⟩
    none 2 false).1 rfl rfl (by decide)

/-! ### Pagination completeness infrastructure -/

/-- Strict descending order on threads by `updated_at`. -/
def threadDescLt (a b : ChatThread) : Prop := b.updated_at < a.updated_at

instance threadDescLt.antisymm : IsAntisymm ChatThread threadDescLt :=
  ⟨fun _ _ h1 h2 => (Nat.lt_asymm h1 h2).elim⟩

/-- Strict ascending order on messages by `created_at`. -/
def msgAscLt (a b : ChatMessage) : Prop := a.created_at < b.created_at

instance msgAscLt.antisymm : IsAntisymm ChatMessage msgAscLt :=
  ⟨fun _ _ h1 h2 => (Nat.lt_asymm h1 h2).elim⟩

/-- A weakly descending thread list with pairwise-distinct `updated_at`
values is strictly descending. -/
theorem pairwise_threadDescLt (l : List ChatThread)
    (h1 : l.Pairwise (threadLe true))
    (h2 : (l.map ChatThread.updated_at).Nodup) :
    l.Pairwise threadDescLt :=
  (h1.and (List.pairwise_map.mp h2)).imp fun hab =>
    lt_of_le_of_ne hab.1 (fun he => hab.2 he.symm)

/-- A weakly ascending message list with pairwise-distinct `created_at`
values is strictly ascending. -/
theorem pairwise_msgAscLt (l : List ChatMessage)
    (h1 : l.Pairwise (msgLe false))
    (h2 : (l.map ChatMessage.created_at).Nodup) :
    l.Pairwise msgAscLt :=
  (h1.and (List.pairwise_map.mp h2)).imp fun hab =>
    lt_of_le_of_ne hab.1 hab.2

/-- Every element of a pairwise-related list is its last element or relates
to it. -/
theorem rel_getLast_of_pairwise {α : Type} {r : α → α → Prop} {l : List α}
    (hp : l.Pairwise r) (hne : l ≠ []) :
    ∀ a ∈ l, a = l.getLast hne ∨ r a (l.getLast hne) := by
  intro a ha
  have hsplit := List.dropLast_append_getLast hne
  rw [← hsplit] at hp ha
  rcases List.mem_append.mp ha with h | h
  · right
    exact (List.pairwise_append.mp hp).2.2 a h _ (List.mem_singleton_self _)
  · left
    exact List.mem_singleton.mp h

/-- On a strictly descending thread list `A ++ B`, filtering by
`updated_at <` the last element of `A` yields exactly `B`. -/
theorem filter_updLt_getLast (A B : List ChatThread)
    (hp : (A ++ B).Pairwise threadDescLt) (hA : A ≠ []) :
    (A ++ B).filter
      (fun x => decide (x.updated_at < (A.getLast hA).updated_at)) = B := by
  rw [List.filter_append]
  have hAB := List.pairwise_append.mp hp
  have hfA : A.filter
      (fun x => decide (x.updated_at < (A.getLast hA).updated_at)) = [] := by
    rw [List.filter_eq_nil_iff]
    intro a ha
    rcases rel_getLast_of_pairwise hAB.1 hA a ha with h | h
    · rw [h]
      simp
    · have hlt : (A.getLast hA).updated_at < a.updated_at := h
      simp only [decide_eq_true_eq]
      omega
  have hfB : B.filter
      (fun x => decide (x.updated_at < (A.getLast hA).updated_at)) = B := by
    rw [List.filter_eq_self]
    intro b hb
    have := hAB.2.2 (A.getLast hA) (List.getLast_mem hA) b hb
    simpa using this
  rw [hfA, hfB, List.nil_append]

/-- Sorting a filtered thread list equals filtering the sorted list when the
`updated_at` keys are distinct. -/
theorem insertionSort_filter_threads (l : List ChatThread)
    (p : ChatThread → Bool) (hnd : (l.map ChatThread.updated_at).Nodup) :
    List.insertionSort (threadLe true) (l.filter p) =
      (List.insertionSort (threadLe true) l).filter p := by
  have hperm1 := List.perm_insertionSort (threadLe true) (l.filter p)
  have hperm2 := (List.perm_insertionSort (threadLe true) l).filter p
  have hnd1 : ((l.filter p).map ChatThread.updated_at).Nodup :=
    List.Nodup.sublist (List.Sublist.map _ (List.filter_sublist l)) hnd
  have hnd1' : ((List.insertionSort (threadLe true) (l.filter p)).map
      ChatThread.updated_at).Nodup :=
    ((List.perm_insertionSort (threadLe true) (l.filter p)).map _).nodup_iff.mpr hnd1
  have hndS : ((List.insertionSort (threadLe true) l).map
      ChatThread.updated_at).Nodup :=
    ((List.perm_insertionSort (threadLe true) l).map _).nodup_iff.mpr hnd
  have hs1 : (List.insertionSort (threadLe true) (l.filter p)).Pairwise threadDescLt :=
    pairwise_threadDescLt _ (List.sorted_insertionSort (threadLe true) _) hnd1'
  have hs2 : ((List.insertionSort (threadLe true) l).filter p).Pairwise threadDescLt :=
    (pairwise_threadDescLt _ (List.sorted_insertionSort (threadLe true) l) hndS).filter p
  exact List.eq_of_perm_of_sorted (hperm1.trans hperm2.symm) hs1 hs2

/-- Invariant step for descending thread pagination: when the sorted owned
list splits as `A ++ B` and the cursor is the id of `A`'s last row (or
absent with `A = []`), the pagination loop returns exactly `B`'s metadata. -/
theorem collectThreads_desc_eq_suffix (tbl : List ChatThread) (uid : String)
    (limit : Nat) (hl : 1 ≤ limit)
    (hids : (tbl.map ChatThread.id).Nodup)
    (hupd : ((ownedThreads tbl uid).map ChatThread.updated_at).Nodup) :
    ∀ (fuel : Nat) (A B : List ChatThread) (cur : Option String),
      List.insertionSort (threadLe true) (ownedThreads tbl uid) = A ++ B →
      ((cur = none ∧ A = []) ∨ (∃ hA : A ≠ [], cur = some (A.getLast hA).id)) →
      B.length + 1 ≤ fuel →
      collectThreads tbl uid limit true cur fuel = B.map threadMeta := by
  intro fuel
  induction fuel with
  | zero =>
      intro A B cur hS hcur hfuel
      omega
  | succ fuel ih =>
      intro A B cur hS hcur hfuel
      have hndSupd : ((List.insertionSort (threadLe true)
          (ownedThreads tbl uid)).map ChatThread.updated_at).Nodup :=
        ((List.perm_insertionSort _ _).map _).nodup_iff.mpr hupd
      have hpS : (A ++ B).Pairwise threadDescLt := by
        rw [← hS]
        exact pairwise_threadDescLt _
          (List.sorted_insertionSort (threadLe true) _) hndSupd
      have hsorted : List.insertionSort (threadLe true)
          (threadsFiltered tbl uid cur) = B := by
        rcases hcur with ⟨hc, hA⟩ | ⟨hA, hc⟩
        · rw [hc]
          show List.insertionSort (threadLe true) (ownedThreads tbl uid) = B
          rw [hS, hA, List.nil_append]
        · have hmemA : A.getLast hA ∈ A ++ B :=
            List.mem_append_left _ (List.getLast_mem hA)
          have hmemS : A.getLast hA ∈
              List.insertionSort (threadLe true) (ownedThreads tbl uid) := by
            rw [hS]
            exact hmemA
          have hmemo : A.getLast hA ∈ ownedThreads tbl uid :=
            (List.perm_insertionSort _ _).subset hmemS
          have hmemt : A.getLast hA ∈ tbl := List.mem_of_mem_filter hmemo
          have hlook : lookupThread tbl ((A.getLast hA).id) =
              some (A.getLast hA) := by
            unfold lookupThread
            apply find?_eq_some_of_nodup_key ChatThread.id tbl hids _ hmemt
            · simp
            · intro x hx
              simpa using hx
          rw [hc]
          show List.insertionSort (threadLe true)
            (threadsFiltered tbl uid (some ((A.getLast hA).id))) = B
          simp only [threadsFiltered, hlook]
          rw [insertionSort_filter_threads _ _ hupd, hS]
          exact filter_updLt_getLast A B hpS hA
      by_cases hmore : limit < B.length
      · have htlen : (B.take (limit + 1)).length = limit + 1 := by
          rw [List.length_take]
          omega
        have hdata : ((B.take (limit + 1)).take limit).map threadMeta =
            (B.take limit).map threadMeta := by
          rw [List.take_take, Nat.min_eq_left (Nat.le_succ _)]
        have htkne : B.take limit ≠ [] := by
          have : (B.take limit).length = limit := by
            rw [List.length_take]
            omega
          intro hnil
          rw [hnil] at this
          simp at this
          omega
        have hlast : ((B.take (limit + 1)).take limit).map threadMeta ≠ [] := by
          rw [hdata]
          simpa using htkne
        have hnext : (((B.take (limit + 1)).take limit).map threadMeta).getLast?.map
            ThreadMetadata.id = some ((B.take limit).getLast htkne).id := by
          rw [hdata, List.getLast?_map,
            List.getLast?_eq_getLast _ htkne]
          rfl
        have hrec : collectThreads tbl uid limit true
            (some ((B.take limit).getLast htkne).id) fuel =
            (B.drop limit).map threadMeta := by
          apply ih (A ++ B.take limit) (B.drop limit)
          · rw [List.append_assoc, List.take_append_drop]
            exact hS
          · right
            refine ⟨by simp [htkne], ?_⟩
            rw [List.getLast_append_of_ne_nil htkne]
          · rw [List.length_drop]
            omega
        have hm : (decide (limit < limit + 1)) = true := by simp
        simp only [collectThreads, load_threads, hsorted]
        rw [hdata] at hnext ⊢
        simp [htlen, hm]
        have hnext2 : Option.map ThreadMetadata.id
            ((List.map threadMeta B).take limit).getLast? =
            some ((B.take limit).getLast htkne).id := by
          rw [← List.map_take]
          exact hnext
        rw [hnext2]
        simp [hrec, List.take_append_drop]
      · have hBlen : B.length ≤ limit := by omega
        have htake1 : B.take (limit + 1) = B := List.take_of_length_le (by omega)
        have htake : B.take limit = B := List.take_of_length_le hBlen
        simp only [collectThreads, load_threads, hsorted, htake1, htake]
        have hm : (decide (limit < B.length)) = false := by
          simp
          omega
        simp only [hm, Bool.false_eq_true, if_false, List.append_nil]

/-- The item a `user`/`assistant` row converts to. -/
def itemOf (m : ChatMessage) : ThreadItem :=
  if m.role == "user" then .user m.id m.thread_id m.created_at m.content
  else .assistant m.id m.thread_id m.created_at m.content

/-- On `user`/`assistant` rows the conversion always succeeds. -/
theorem rowToItem_eq_itemOf (m : ChatMessage)
    (h : m.role = "user" ∨ m.role = "assistant") :
    rowToItem m = some (itemOf m) := by
  rcases h with h | h <;> simp [rowToItem, itemOf, h]

/-- The converted item keeps the row's id. -/
theorem itemId_itemOf (m : ChatMessage) : itemId (itemOf m) = m.id := by
  unfold itemOf
  by_cases h : (m.role == "user") = true <;> simp [h, itemId]

/-- Over `user`/`assistant` rows, `filterMap rowToItem` is a total map. -/
theorem filterMap_rowToItem_eq_map (l : List ChatMessage)
    (h : ∀ m ∈ l, m.role = "user" ∨ m.role = "assistant") :
    l.filterMap rowToItem = l.map itemOf := by
  induction l with
  | nil => rfl
  | cons a l ih =>
      rw [List.filterMap_cons, rowToItem_eq_itemOf a (h a (List.mem_cons_self a l)),
        List.map_cons, ih (fun m hm => h m (List.mem_cons_of_mem a hm))]

/-- When ids and `created_at` order agree, distinct ids give distinct
`created_at` values. -/
theorem nodup_created_of_nodup_id (l : List ChatMessage)
    (hids : (l.map ChatMessage.id).Nodup)
    (hiff : ∀ m1 ∈ l, ∀ m2 ∈ l,
      (m1.id < m2.id ↔ m1.created_at < m2.created_at)) :
    (l.map ChatMessage.created_at).Nodup := by
  apply List.pairwise_map.mpr
  refine (List.pairwise_map.mp hids).imp_of_mem ?_
  intro a b ha hb hne he
  have h1 := hiff a ha b hb
  have h2 := hiff b hb a ha
  have n1 : ¬(a.id < b.id) := fun hlt => by
    have := h1.mp hlt
    omega
  have n2 : ¬(b.id < a.id) := fun hlt => by
    have := h2.mp hlt
    omega
  exact hne (by omega)

/-- On a strictly ascending message list `A ++ B` whose id order matches its
`created_at` order, filtering by `id >` the last element of `A` yields
exactly `B`. -/
theorem filter_idGt_getLast (A B : List ChatMessage)
    (hp : (A ++ B).Pairwise msgAscLt) (hA : A ≠ [])
    (hiff : ∀ m1 ∈ A ++ B, ∀ m2 ∈ A ++ B,
      (m1.id < m2.id ↔ m1.created_at < m2.created_at)) :
    (A ++ B).filter (fun m => decide ((A.getLast hA).id < m.id)) = B := by
  have hc : A.getLast hA ∈ A ++ B :=
    List.mem_append_left _ (List.getLast_mem hA)
  rw [List.filter_append]
  have hAB := List.pairwise_append.mp hp
  have hfA : A.filter (fun m => decide ((A.getLast hA).id < m.id)) = [] := by
    rw [List.filter_eq_nil_iff]
    intro a ha
    have haS : a ∈ A ++ B := List.mem_append_left _ ha
    rcases rel_getLast_of_pairwise hAB.1 hA a ha with h | h
    · rw [h]
      simp
    · have hlt : a.id < (A.getLast hA).id := (hiff a haS _ hc).mpr h
      simp only [decide_eq_true_eq]
      omega
  have hfB : B.filter (fun m => decide ((A.getLast hA).id < m.id)) = B := by
    rw [List.filter_eq_self]
    intro b hb
    have hbS : b ∈ A ++ B := List.mem_append_right _ hb
    have h := hAB.2.2 (A.getLast hA) (List.getLast_mem hA) b hb
    have hlt : (A.getLast hA).id < b.id := (hiff _ hc b hbS).mpr h
    simpa using hlt
  rw [hfA, hfB, List.nil_append]

/-- Sorting a filtered message list equals filtering the sorted list when the
`created_at` keys are distinct. -/
theorem insertionSort_filter_msgs (l : List ChatMessage)
    (p : ChatMessage → Bool) (hnd : (l.map ChatMessage.created_at).Nodup) :
    List.insertionSort (msgLe false) (l.filter p) =
      (List.insertionSort (msgLe false) l).filter p := by
  have hperm1 := List.perm_insertionSort (msgLe false) (l.filter p)
  have hperm2 := (List.perm_insertionSort (msgLe false) l).filter p
  have hnd1 : ((l.filter p).map ChatMessage.created_at).Nodup :=
    List.Nodup.sublist (List.Sublist.map _ (List.filter_sublist l)) hnd
  have hnd1' : ((List.insertionSort (msgLe false) (l.filter p)).map
      ChatMessage.created_at).Nodup :=
    ((List.perm_insertionSort (msgLe false) (l.filter p)).map _).nodup_iff.mpr hnd1
  have hndS : ((List.insertionSort (msgLe false) l).map
      ChatMessage.created_at).Nodup :=
    ((List.perm_insertionSort (msgLe false) l).map _).nodup_iff.mpr hnd
  have hs1 : (List.insertionSort (msgLe false) (l.filter p)).Pairwise msgAscLt :=
    pairwise_msgAscLt _ (List.sorted_insertionSort (msgLe false) _) hnd1'
  have hs2 : ((List.insertionSort (msgLe false) l).filter p).Pairwise msgAscLt :=
    (pairwise_msgAscLt _ (List.sorted_insertionSort (msgLe false) l) hndS).filter p
  exact List.eq_of_perm_of_sorted (hperm1.trans hperm2.symm) hs1 hs2

/-- Invariant step for ascending item pagination: when the sorted thread
messages split as `A ++ B` and the cursor is the id of `A`'s last row (or
absent with `A = []`), the pagination loop returns exactly `B`'s items. -/
theorem collectItems_asc_eq_suffix (threads : List ChatThread)
    (msgs : List ChatMessage) (uid tid : String) (t : ChatThread)
    (limit : Nat) (hl : 1 ≤ limit)
    (hth : lookupThread threads tid = some t) (hu : t.user_id = uid)
    (hne : uid ≠ "")
    (hids : ((threadMsgs msgs tid).map ChatMessage.id).Nodup)
    (hiff : ∀ m1 ∈ threadMsgs msgs tid, ∀ m2 ∈ threadMsgs msgs tid,
      (m1.id < m2.id ↔ m1.created_at < m2.created_at))
    (hroles : ∀ m ∈ threadMsgs msgs tid,
      m.role = "user" ∨ m.role = "assistant") :
    ∀ (fuel : Nat) (A B : List ChatMessage) (cur : Option Nat),
      List.insertionSort (msgLe false) (threadMsgs msgs tid) = A ++ B →
      ((cur = none ∧ A = []) ∨ (∃ hA : A ≠ [], cur = some (A.getLast hA).id)) →
      B.length + 1 ≤ fuel →
      collectItems threads msgs uid tid limit false cur fuel =
        B.map itemOf := by
  have hpage : ∀ cur, load_thread_items threads msgs uid tid cur limit false =
      .ok (thread_items_page msgs tid cur limit false) := by
    intro cur
    have h1 : ¬(t.user_id = "") := by
      rw [hu]
      exact hne
    simp [load_thread_items, hth, hu, h1, hne]
  have hcr : ((threadMsgs msgs tid).map ChatMessage.created_at).Nodup :=
    nodup_created_of_nodup_id _ hids hiff
  intro fuel
  induction fuel with
  | zero =>
      intro A B cur hS hcur hfuel
      omega
  | succ fuel ih =>
      intro A B cur hS hcur hfuel
      have hmem : ∀ x, x ∈ A ++ B → x ∈ threadMsgs msgs tid := by
        intro x hx
        rw [← hS] at hx
        exact (List.perm_insertionSort _ _).subset hx
      have hiffAB : ∀ m1 ∈ A ++ B, ∀ m2 ∈ A ++ B,
          (m1.id < m2.id ↔ m1.created_at < m2.created_at) :=
        fun m1 h1 m2 h2 => hiff m1 (hmem _ h1) m2 (hmem _ h2)
      have hrolesB : ∀ m ∈ B, m.role = "user" ∨ m.role = "assistant" :=
        fun m hm => hroles m (hmem m (List.mem_append_right _ hm))
      have hndScr : ((List.insertionSort (msgLe false)
          (threadMsgs msgs tid)).map ChatMessage.created_at).Nodup :=
        ((List.perm_insertionSort _ _).map _).nodup_iff.mpr hcr
      have hpS : (A ++ B).Pairwise msgAscLt := by
        rw [← hS]
        exact pairwise_msgAscLt _
          (List.sorted_insertionSort (msgLe false) _) hndScr
      have hsorted : List.insertionSort (msgLe false)
          (itemsFiltered msgs tid cur) = B := by
        rcases hcur with ⟨hc, hA⟩ | ⟨hA, hc⟩
        · rw [hc]
          show List.insertionSort (msgLe false) (threadMsgs msgs tid) = B
          rw [hS, hA, List.nil_append]
        · rw [hc]
          show List.insertionSort (msgLe false)
            (itemsFiltered msgs tid (some ((A.getLast hA).id))) = B
          simp only [itemsFiltered]
          rw [insertionSort_filter_msgs _ _ hcr, hS]
          exact filter_idGt_getLast A B hpS hA hiffAB
      by_cases hmore : limit < B.length
      · have htlen : (B.take (limit + 1)).length = limit + 1 := by
          rw [List.length_take]
          omega
        have htkne : B.take limit ≠ [] := by
          have hlen : (B.take limit).length = limit := by
            rw [List.length_take]
            omega
          intro hnil
          rw [hnil] at hlen
          simp at hlen
          omega
        have hdata : ((B.take (limit + 1)).take limit).filterMap rowToItem =
            (B.take limit).map itemOf := by
          rw [List.take_take, Nat.min_eq_left (Nat.le_succ _)]
          exact filterMap_rowToItem_eq_map _
            (fun m hm => hrolesB m (List.take_subset _ _ hm))
        have hrec : collectItems threads msgs uid tid limit false
            (some ((B.take limit).getLast htkne).id) fuel =
            (B.drop limit).map itemOf := by
          apply ih (A ++ B.take limit) (B.drop limit)
          · rw [List.append_assoc, List.take_append_drop]
            exact hS
          · right
            refine ⟨by simp [htkne], ?_⟩
            rw [List.getLast_append_of_ne_nil htkne]
          · rw [List.length_drop]
            omega
        have hm : (decide (limit < limit + 1)) = true := by simp
        simp only [collectItems, hpage, thread_items_page, hsorted]
        rw [hdata]
        simp [htlen, hm]
        have hnext2 : Option.map itemId
            (((List.map itemOf B).take limit).getLast?) =
            some ((B.take limit).getLast htkne).id := by
          rw [← List.map_take, List.getLast?_map,
            List.getLast?_eq_getLast _ htkne]
          simp [itemId_itemOf]
        rw [hnext2]
        simp [hrec, List.take_append_drop]
      · have hBlen : B.length ≤ limit := by omega
        have htake1 : B.take (limit + 1) = B := List.take_of_length_le (by omega)
        have htake : B.take limit = B := List.take_of_length_le hBlen
        have hdata : B.filterMap rowToItem = B.map itemOf :=
          filterMap_rowToItem_eq_map _ hrolesB
        simp only [collectItems, hpage, thread_items_page, hsorted, htake1,
          htake, hdata]
        have hm : (decide (limit < B.length)) = false := by
          simp
          omega
        simp only [hm, Bool.false_eq_true, if_false, List.append_nil]

/-- C2 counterexample: the cursor predicates are not direction-dependent, so
pagination loses rows in one direction of each call. Ascending
`list_threads` over two owned threads with `limit = 1` terminates after
returning only the older thread, losing `t2`; descending
`load_thread_items` over two messages with `limit = 1` terminates after
returning only the newer message, losing message `1`. This refutes the
claim that the loop is complete "in either requested order" and that the
predicate compares "in the requested direction". -/
theorem C2_counterexample :
    (collectThreads [⟨"t1", "u", none, 1, 1⟩, ⟨"t2", "u", none, 2, 2⟩] "u" 1
        false none 5 = [⟨"t1", 1, some 1⟩] ∧
      (⟨"t2", "u", none, 2, 2⟩ : ChatThread) ∈
        ownedThreads [⟨"t1", "u", none, 1, 1⟩, ⟨"t2", "u", none, 2, 2⟩] "u" ∧
      ∀ p ∈ collectThreads [⟨"t1", "u", none, 1, 1⟩, ⟨"t2", "u", none, 2, 2⟩]
          "u" 1 false none 5, p.id ≠ "t2") ∧
    (collectItems [⟨"t", "u", none, 0, 0⟩]
        [⟨1, "t", "user", "a", 10⟩, ⟨2, "t", "user", "b", 20⟩] "u" "t" 1 true
        none 5 = [.user 2 "t" 20 "b"] ∧
      (⟨1, "t", "user", "a", 10⟩ : ChatMessage) ∈
        threadMsgs [⟨1, "t", "user", "a", 10⟩, ⟨2, "t", "user", "b", 20⟩] "t" ∧
      ∀ it ∈ collectItems [⟨"t", "u", none, 0, 0⟩]
          [⟨1, "t", "user", "a", 10⟩, ⟨2, "t", "user", "b", 20⟩] "u" "t" 1 true
          none 5, itemId it ≠ 1) := by
  decide

/-- C2 amended: pagination completeness holds in the direction matching the
hard-coded cursor predicates. Descending `list_threads` (cursor predicate
`updated_at <` the cursor row's value), iterated from no cursor with
`limit ≥ 1` until `has_more` is false, returns exactly the owner's threads,
sorted descending by `updated_at`, with no duplicates and no gaps — given
unique thread ids and distinct `updated_at` values per owner. Ascending
`load_thread_items` (cursor predicate `id >` cursor), iterated the same
way over a thread owned by the caller, returns exactly the thread's
messages sorted ascending by `created_at` — given unique message ids
agreeing with `created_at` order and only `user`/`assistant` roles. -/
theorem C2_pagination_amended (tbl : List ChatThread) (uid : String)
    (limit fuel : Nat) (threads2 : List ChatThread) (msgs : List ChatMessage)
    (uid2 tid : String) (t : ChatThread) (limit2 fuel2 : Nat) :
    (1 ≤ limit → (tbl.map ChatThread.id).Nodup →
      ((ownedThreads tbl uid).map ChatThread.updated_at).Nodup →
      tbl.length + 1 ≤ fuel →
      collectThreads tbl uid limit true none fuel =
        (List.insertionSort (threadLe true) (ownedThreads tbl uid)).map
          threadMeta ∧
      List.Perm (collectThreads tbl uid limit true none fuel)
        ((ownedThreads tbl uid).map threadMeta)) ∧
    (1 ≤ limit2 → lookupThread threads2 tid = some t → t.user_id = uid2 →
      uid2 ≠ "" → ((threadMsgs msgs tid).map ChatMessage.id).Nodup →
      (∀ m1 ∈ threadMsgs msgs tid, ∀ m2 ∈ threadMsgs msgs tid,
        (m1.id < m2.id ↔ m1.created_at < m2.created_at)) →
      (∀ m ∈ threadMsgs msgs tid, m.role = "user" ∨ m.role = "assistant") →
      msgs.length + 1 ≤ fuel2 →
      collectItems threads2 msgs uid2 tid limit2 false none fuel2 =
        (List.insertionSort (msgLe false) (threadMsgs msgs tid)).map itemOf ∧
      List.Perm (collectItems threads2 msgs uid2 tid limit2 false none fuel2)
        ((threadMsgs msgs tid).filterMap rowToItem)) := by
  constructor
  · intro hl hids hupd hfuel
    have hlen : (List.insertionSort (threadLe true)
        (ownedThreads tbl uid)).length ≤ tbl.length := by
      rw [(List.perm_insertionSort (threadLe true) (ownedThreads tbl uid)).length_eq]
      exact List.length_filter_le _ tbl
    have heq := collectThreads_desc_eq_suffix tbl uid limit hl hids hupd fuel
      [] (List.insertionSort (threadLe true) (ownedThreads tbl uid)) none
      (List.nil_append _).symm (Or.inl ⟨rfl, rfl⟩) (by omega)
    refine ⟨heq, ?_⟩
    rw [heq]
    exact (List.perm_insertionSort (threadLe true) (ownedThreads tbl uid)).map _
  · intro hl hth hu hne hids hiff hroles hfuel
    have hlen : (List.insertionSort (msgLe false)
        (threadMsgs msgs tid)).length ≤ msgs.length := by
      rw [(List.perm_insertionSort (msgLe false) (threadMsgs msgs tid)).length_eq]
      exact List.length_filter_le _ msgs
    have heq := collectItems_asc_eq_suffix threads2 msgs uid2 tid t limit2 hl
      hth hu hne hids hiff hroles fuel2
      [] (List.insertionSort (msgLe false) (threadMsgs msgs tid)) none
      (List.nil_append _).symm (Or.inl ⟨rfl, rfl⟩) (by omega)
    refine ⟨heq, ?_⟩
    rw [heq, ← filterMap_rowToItem_eq_map _ (fun m hm => hroles m
      ((List.perm_insertionSort (msgLe false) (threadMsgs msgs tid)).subset hm))]
    exact (List.perm_insertionSort (msgLe false) (threadMsgs msgs tid)).filterMap _

/-- C2 witness: concrete complete paginations — two owned threads fetched
descending with `limit = 1`, and two thread messages fetched ascending with
`limit = 1`. -/
theorem C2_witness :
    (collectThreads [⟨"t1", "u", none, 1, 1⟩, ⟨"t2", "u", none, 2, 2⟩] "u" 1
        true none 3 =
      (List.insertionSort (threadLe true)
        (ownedThreads [⟨"t1", "u", none, 1, 1⟩, ⟨"t2", "u", none, 2, 2⟩] "u")).map
        threadMeta) ∧
    (collectItems [⟨"t", "u", none, 0, 0⟩]
        [⟨1, "t", "user", "a", 10⟩, ⟨2, "t", "user", "b", 20⟩] "u" "t" 1 false
        none 3 =
      (List.insertionSort (msgLe false)
        (threadMsgs [⟨1, "t", "user", "a", 10⟩, ⟨2, "t", "user", "b", 20⟩]
          "t")).map itemOf) :=
  ⟨((C2_pagination_amended [⟨"t1", "u", none, 1, 1⟩, ⟨"t2", "u", none, 2, 2⟩]
      "u" 1 3 [⟨"t", "u", none, 0, 0⟩]
      [⟨1, "t", "user", "a", 10⟩, ⟨2, "t", "user", "b", 20⟩] "u" "t"
      ⟨"t", "u", none, 0, 0⟩ 1 3).1 (by decide) (by decide) (by decide)
      (by decide)).1,
    ((C2_pagination_amended [⟨"t1", "u", none, 1, 1⟩, ⟨"t2", "u", none, 2, 2⟩]
      "u" 1 3 [⟨"t", "u", none, 0, 0⟩]
      [⟨1, "t", "user", "a", 10⟩, ⟨2, "t", "user", "b", 20⟩] "u" "t"
      ⟨"t", "u", none, 0, 0⟩ 1 3).2 (by decide) rfl rfl (by decide)
      (by decide) (by decide) (by decide) (by decide)).1⟩

end TodoApp
